import Mathlib

/-!
Verification development for the NBN record-cleaner verification-rule parser.

The Python source (RuleParser.py, RuleOutput.py, utils.py) is shallowly
embedded below.  Conventions of the embedding:

* A parsed rule file (the post-read state of a `ConfigParser`) is a list of
  sections; a section is a name paired with an association list of options.
  The reader lower-cases option keys on read (`optionxform`), so section
  entries are stored with lower-case keys and look-ups lower-case the key
  being searched.  Section names are matched exactly, as `has_section` does.
* Python dicts (rule records) are association lists `Dict` preserving
  insertion order; assignment to an existing key updates it in place
  (`dset`), assignment to a fresh key appends.
* Python exceptions that the source can actually raise (`NameError` for a
  local read before any assignment, `IndexError` for list indexing) are
  modelled by `PyErr`; a per-file step yields a `FileOutcome` which also
  records an early `return False` from the enclosing folder loop.
* Logging, the progress bar and the skip counter have no effect on the data
  flow and are omitted.
-/

/-- The `<ERROR>` sentinel (`RuleParser.ERROR`). -/
def ERROR : String := "<ERROR>"

/-- A Python dict from string keys to string values, in insertion order. -/
abbrev Dict := List (String × String)

/-- Dict look-up (`d[k]` / `d.get(k)`), first (unique) binding. -/
def dget : Dict → String → Option String
  | [], _ => none
  | (k', v) :: rest, k => if k' == k then some v else dget rest k

/-- Dict look-up defaulting to `""`.  The consolidation code indexes keys
that every parser-built rule defines, so the default is never observed on
the records the source actually builds. -/
def getS (d : Dict) (k : String) : String := (dget d k).getD ""

/-- Dict assignment `d[k] = v`: update the existing binding in place,
else append a new one (Python dict semantics). -/
def dset : Dict → String → String → Dict
  | [], k, v => [(k, v)]
  | (k', v') :: rest, k, v =>
    if k' == k then (k, v) :: rest else (k', v') :: dset rest k v

/-- The keys of a dict, in order. -/
def dkeys (d : Dict) : List String := d.map (fun p => p.1)

/-- Python's `str.lower()` for the ASCII data the rule files contain,
as a computation on the string's characters. -/
def pyToLower (s : String) : String := String.mk (s.data.map Char.toLower)

/-- Python's `str.upper()` for the ASCII data the rule files contain. -/
def pyToUpper (s : String) : String := String.mk (s.data.map Char.toUpper)

/-- Does `cs` start with `pat`? -/
def startsWith : List Char → List Char → Bool
  | _, [] => true
  | [], _ :: _ => false
  | c :: cs, p :: ps => c == p && startsWith cs ps

/-- Does `pat` occur (contiguously) in `cs`? -/
def containsSub : List Char → List Char → Bool
  | [], pat => pat.isEmpty
  | c :: cs, pat => startsWith (c :: cs) pat || containsSub cs pat

/-- A section's entries: option key (lower-cased by the reader) to value. -/
abbrev Sec := List (String × String)

/-- A rule file as read by `ConfigParser`: named sections in file order. -/
abbrev Config := List (String × Sec)

/-- Find a section by exact name. -/
def lookupSec : Config → String → Option Sec
  | [], _ => none
  | (n, es) :: rest, name => if n == name then some es else lookupSec rest name

/-- `config.has_section(n)`. -/
def hasSection (cfg : Config) (n : String) : Bool := (lookupSec cfg n).isSome

/-- The entries of a section, `[]` when the section is absent. -/
def getSection (cfg : Config) (n : String) : Sec := (lookupSec cfg n).getD []

/-- Section-level option look-up; the looked-up key is lower-cased as
`optionxform` does. -/
def optGet : Sec → String → Option String
  | [], _ => none
  | (k', v) :: rest, k => if k' == pyToLower k then some v else optGet rest k

/-- `config[sec].get(key, dflt)`. -/
def sget (cfg : Config) (sec key dflt : String) : String :=
  (optGet (getSection cfg sec) key).getD dflt

/-- `config.items(sec)`: the section's (key, value) pairs. -/
def secItems (cfg : Config) (sec : String) : Sec := getSection cfg sec

/-- Python's `pat in s` substring test, for a non-empty pattern. -/
def inStr (pat s : String) : Bool := containsSub s.data pat.data

/-- Python's non-overlapping left-to-right `x.replace('\n\n', '\n')`,
on the character list of the string. -/
def collapse : List Char → List Char
  | [] => []
  | [c] => [c]
  | c1 :: c2 :: rest =>
    if c1 = '\n' ∧ c2 = '\n' then '\n' :: collapse rest
    else c1 :: collapse (c2 :: rest)

/-- Split a character list at every newline, keeping empty pieces. -/
def splitNl : List Char → List (List Char)
  | [] => [[]]
  | c :: rest =>
    if c = '\n' then [] :: splitNl rest
    else
      match splitNl rest with
      | p :: ps => (c :: p) :: ps
      | [] => [[c]]

/-- Python's `str.splitlines()` for strings whose only line separator is
`'\n'` (the only separator the joined config values contain): each newline
terminates a line, so a trailing newline does not yield a final empty
element, and the empty string yields no elements. -/
def pySplitlines (cs : List Char) : List (List Char) :=
  match cs with
  | [] => []
  | _ :: _ =>
    let ps := splitNl cs
    if ps.getLast? = some [] then ps.dropLast else ps

/-- `value.replace('\n\n', '\n').splitlines()` — the parallel-array split
used in the flightperiod/period/seasonal `[Data]` blocks. -/
def splitArr (s : String) : List String :=
  (pySplitlines (collapse s.data)).map (fun cs => String.mk cs)

/-- The exceptions the parsing core can raise. -/
inductive PyErr where
  | nameError (var : String)
  | indexError
deriving DecidableEq, Repr

/-- Result of processing one file inside a folder loop: continue with the
rules this file appended and its success flag, return `False` early from
the folder routine, or raise. -/
inductive FileOutcome where
  | ok (newRules : List Dict) (fileOk : Bool)
  | abort (newRules : List Dict)
  | crash (newRules : List Dict) (e : PyErr)
deriving DecidableEq, Repr

/-- The rules a file outcome appended to the output list. -/
def outRules : FileOutcome → List Dict
  | FileOutcome.ok rs _ => rs
  | FileOutcome.abort rs => rs
  | FileOutcome.crash rs _ => rs

/-- One iteration of the `process_additional` file loop
(RuleParser.py lines 105-145).  `error_msg` is a function-level local that
survives from earlier iterations; it enters and leaves as the first
component.  Referencing it before any assignment raises `NameError`. -/
def additionalFile (org : String) (error_msg : Option String) (cfg : Config) :
    Option String × FileOutcome :=
  let mOk := hasSection cfg "Metadata"
  let tt := sget cfg "Metadata" "TestType" ERROR
  let em := sget cfg "Metadata" "ErrorMsg" ERROR
  let env := if mOk then some em else error_msg
  let rv : Bool := mOk && (tt == "AncillarySpecies") && !(em == ERROR)
  if hasSection cfg "INI" then
    if hasSection cfg "Data" then
      match secItems cfg "Data", env with
      | [], _ => (env, FileOutcome.ok [] rv)
      | _ :: _, none => (env, FileOutcome.crash [] (PyErr.nameError "error_msg"))
      | items, some em' =>
        (env, FileOutcome.ok (items.map (fun kv =>
          [("taxon_key", kv.1), ("organisation", org), ("message", em'),
           ("information", sget cfg "INI" kv.2 ERROR)])) rv)
    else (env, FileOutcome.ok [] false)
  else (env, FileOutcome.ok [] false)

/-- One iteration of the `process_difficulty` file loop
(RuleParser.py lines 168-202).  This loop can neither raise nor return
early, so it yields the appended rules and the file's success flag. -/
def difficultyFile (org : String) (cfg : Config) : List Dict × Bool :=
  let mOk := hasSection cfg "Metadata"
  let tt := sget cfg "Metadata" "TestType" ""
  let rv : Bool := mOk && (tt == "IdentificationDifficulty")
  if hasSection cfg "INI" then
    if hasSection cfg "Data" then
      ((secItems cfg "Data").map (fun kv =>
        [("taxon_key", kv.1), ("organisation", org),
         ("message", sget cfg "INI" kv.2 ERROR), ("difficulty_key", kv.2)]), rv)
    else ([], false)
  else ([], false)

/-- A stage-specific (or, with empty stage, base) flightperiod/period rule
record as built in the `[Data]` loops. -/
def mkStageRule (tvk org em s e st : String) : Dict :=
  [("taxon_key", tvk), ("organisation", org), ("message", em),
   ("start_date", s), ("end_date", e), ("stage", st)]

/-- The `for i in range(len(stage))` loop of the `[Data]` blocks: one rule
per element of `stage`, indexing into the start/end arrays; an index past
the end of `s_d` or `e_d` raises `IndexError`, keeping the rules appended
before the failing index. -/
def zipStages (tvk org em : String) :
    List String → List String → List String → List Dict × Option PyErr
  | [], _, _ => ([], none)
  | st :: sts, s :: ss, e :: es =>
    let r := zipStages tvk org em sts ss es
    (mkStageRule tvk org em s e st :: r.1, r.2)
  | _ :: _, _, _ => ([], some PyErr.indexError)

/-- One iteration of the `process_flightperiod` file loop
(RuleParser.py lines 222-279).  The base rule is appended whenever
`[Metadata]` exists, even when its required fields are unresolved; an
`<ERROR>` element in a `[Data]` array returns `False` for the whole
folder. -/
def flightperiodFile (org : String) (cfg : Config) : FileOutcome :=
  if hasSection cfg "Metadata" then
    let tt := sget cfg "Metadata" "TestType" ERROR
    let tvk := sget cfg "Metadata" "Tvk" ERROR
    let em := sget cfg "Metadata" "ErrorMsg" ERROR
    let sd := sget cfg "Metadata" "StartDate" ERROR
    let ed := sget cfg "Metadata" "EndDate" ERROR
    let rv : Bool := (tt == "PeriodWithinYear") &&
      !(em == ERROR || tvk == ERROR || sd == ERROR || ed == ERROR)
    let base := mkStageRule tvk org em sd ed ""
    if hasSection cfg "Data" ∧ secItems cfg "Data" ≠ [] then
      let stage := splitArr (sget cfg "Data" "Stage" ERROR)
      let s_d := splitArr (sget cfg "Data" "StartDate" ERROR)
      let e_d := splitArr (sget cfg "Data" "EndDate" ERROR)
      if ERROR ∈ stage ∨ ERROR ∈ s_d ∨ ERROR ∈ e_d then FileOutcome.abort [base]
      else
        let z := zipStages tvk org em stage s_d e_d
        match z.2 with
        | none => FileOutcome.ok (base :: z.1) rv
        | some e => FileOutcome.crash (base :: z.1) e
    else FileOutcome.ok [base] rv
  else FileOutcome.ok [] false

/-- The base rule of `process_period_generic`: the `stage` key is added
only when the expected test type is exactly `PeriodWithinYear`. -/
def mkPeriodBase (tvk org em sd ed : String) (withStage : Bool) : Dict :=
  [("taxon_key", tvk), ("organisation", org), ("message", em),
   ("start_date", sd), ("end_date", ed)] ++
  (if withStage then [("stage", "")] else [])

/-- One iteration of the `process_period_generic` file loop
(RuleParser.py lines 313-377).  A `TestType` mismatch (case-insensitive)
or an unresolved required metadata field returns `False` for the whole
folder before appending anything for this file. -/
def periodGenericFile (org test_type : String) (cfg : Config) : FileOutcome :=
  if hasSection cfg "Metadata" then
    let tt := sget cfg "Metadata" "TestType" ERROR
    if ¬ (pyToLower tt = pyToLower test_type) then FileOutcome.abort []
    else
      let em := sget cfg "Metadata" "ErrorMsg" ERROR
      let tvk := sget cfg "Metadata" "Tvk" ERROR
      let sd := sget cfg "Metadata" "StartDate" ERROR
      let ed := sget cfg "Metadata" "EndDate" ERROR
      if em = ERROR ∨ tvk = ERROR ∨ sd = ERROR ∨ ed = ERROR then
        FileOutcome.abort []
      else
        let base := mkPeriodBase tvk org em sd ed (test_type == "PeriodWithinYear")
        if hasSection cfg "Data" ∧ secItems cfg "Data" ≠ [] then
          let stage := splitArr (sget cfg "Data" "Stage" ERROR)
          let s_d := splitArr (sget cfg "Data" "StartDate" ERROR)
          let e_d := splitArr (sget cfg "Data" "EndDate" ERROR)
          if ERROR ∈ stage ∨ ERROR ∈ s_d ∨ ERROR ∈ e_d then FileOutcome.abort [base]
          else
            let z := zipStages tvk org em stage s_d e_d
            match z.2 with
            | none => FileOutcome.ok (base :: z.1) true
            | some e => FileOutcome.crash (base :: z.1) e
        else FileOutcome.ok [base] true
  else FileOutcome.ok [] false

/-- `process_country` inside `process_polygon_generic`: the keys of a
country section, each followed by a semicolon; `""` when absent. -/
def processCountry (cfg : Config) (sec : String) : String :=
  String.join ((getSection cfg sec).map (fun kv => kv.1 ++ ";"))

/-- One iteration of the `process_polygon_generic` file loop
(RuleParser.py lines 408-442).  `tvk` and `error_msg` are function-level
locals assigned only under `[Metadata]`; the record is built
unconditionally, so a first file without `[Metadata]` raises `NameError`.
The record is appended even when its fields are the `<ERROR>` sentinel. -/
def polygonFile (org : String) (env : Option String × Option String)
    (cfg : Config) : (Option String × Option String) × FileOutcome :=
  let mOk := hasSection cfg "Metadata"
  let tt := sget cfg "Metadata" "TestType" ERROR
  let tvkN := sget cfg "Metadata" "DataRecordId" ERROR
  let emN := sget cfg "Metadata" "ErrorMsg" ERROR
  let env' := if mOk then (some tvkN, some emN) else env
  let rv : Bool := mOk && (tt == "WithoutPolygon") && !(tvkN == ERROR || emN == ERROR)
  match env' with
  | (some tvk, some em) =>
    (env', FileOutcome.ok
      [[("taxon_key", tvk), ("organisation", org), ("message", em),
        ("10km_GB", processCountry cfg "10km_GB"),
        ("10km_Ireland", processCountry cfg "10km_Ireland"),
        ("10km_CI", processCountry cfg "10km_CI")]] rv)
  | (none, _) => (env', FileOutcome.crash [] (PyErr.nameError "tvk"))
  | (some _, none) => (env', FileOutcome.crash [] (PyErr.nameError "error_msg"))

/-- The common file loop of the folder routines: thread the per-file step
over the files, accumulating appended rules and the folder success flag
(only ever cleared), honouring early returns and exceptions. -/
def runFiles {σ : Type} (step : σ → Config → σ × FileOutcome) :
    σ → List Config → List Dict → Bool → Except PyErr (List Dict × Bool)
  | _, [], acc, rv => Except.ok (acc, rv)
  | env, f :: fs, acc, rv =>
    match step env f with
    | (env', FileOutcome.ok rs fOk) => runFiles step env' fs (acc ++ rs) (rv && fOk)
    | (_, FileOutcome.abort rs) => Except.ok (acc ++ rs, false)
    | (_, FileOutcome.crash _ e) => Except.error e

/-- `RuleParser.process_additional` over a folder's files.  The Python
method mutates `self.additionals` and returns a bool; the embedding
returns the appended rules with the bool. -/
def process_additional (org : String) (files : List Config) :
    Except PyErr (List Dict × Bool) :=
  if files.isEmpty then Except.ok ([], false)
  else runFiles (additionalFile org) none files [] true

/-- `RuleParser.process_difficulty` over a folder's files (the recursive
glob fall-back for empty folders is modelled by the caller passing the
files it finds). -/
def process_difficulty (org : String) (files : List Config) :
    Except PyErr (List Dict × Bool) :=
  if files.isEmpty then Except.ok ([], false)
  else runFiles (fun (_u : Unit) cfg =>
    let d := difficultyFile org cfg
    ((), FileOutcome.ok d.1 d.2)) () files [] true

/-- `RuleParser.process_flightperiod` over a folder's files. -/
def process_flightperiod (org : String) (files : List Config) :
    Except PyErr (List Dict × Bool) :=
  if files.isEmpty then Except.ok ([], false)
  else runFiles (fun (_u : Unit) cfg => ((), flightperiodFile org cfg)) () files [] true

/-- `RuleParser.process_period_generic` over a folder's files. -/
def process_period_generic (org test_type : String) (files : List Config) :
    Except PyErr (List Dict × Bool) :=
  if files.isEmpty then Except.ok ([], false)
  else runFiles (fun (_u : Unit) cfg => ((), periodGenericFile org test_type cfg))
    () files [] true

/-- `RuleParser.process_period`. -/
def process_period (org : String) (files : List Config) :
    Except PyErr (List Dict × Bool) :=
  process_period_generic org "period" files

/-- `RuleParser.process_seasonalperiod`. -/
def process_seasonalperiod (org : String) (files : List Config) :
    Except PyErr (List Dict × Bool) :=
  process_period_generic org "PeriodWithinYear" files

/-- `RuleParser.process_polygon_generic` over a folder's files. -/
def process_polygon_generic (org : String) (files : List Config) :
    Except PyErr (List Dict × Bool) :=
  if files.isEmpty then Except.ok ([], false)
  else runFiles (polygonFile org) (none, none) files [] true

/-- `RuleParser.process_range`. -/
def process_range (org : String) (files : List Config) :
    Except PyErr (List Dict × Bool) :=
  process_polygon_generic org files

/-- `RuleParser.process_tenkm`. -/
def process_tenkm (org : String) (files : List Config) :
    Except PyErr (List Dict × Bool) :=
  process_polygon_generic org files

/-- A leaf rule folder (`rules` level of `read_rules`): its base name and
the files it contains. -/
structure LeafF where
  name : String
  files : List Config
deriving DecidableEq

/-- A group folder: its base name, its subfolders (the leaf rule folders)
and its own files (used by the fall-back when it has no subfolders). -/
structure GroupF where
  name : String
  leaves : List LeafF
  files : List Config
deriving DecidableEq

/-- A top-level folder under an organisation root: the path string the
dispatcher inspects (the `_idifficulty` test is a substring match on the
whole lower-cased path), its groups, and the files `process_difficulty`
sees when the name routes the whole subtree to the difficulty grammar. -/
structure TopF where
  name : String
  groups : List GroupF
  dfiles : List Config
deriving DecidableEq

/-- Dispatch one leaf rule folder by exact lower-cased name
(RuleParser.py lines 519-535); an unknown name sets the flag to `False`. -/
def dispatchLeaf (org : String) (leaf : LeafF) : Except PyErr Bool :=
  let r := pyToLower leaf.name
  if r = "additional" then (process_additional org leaf.files).map (fun x => x.2)
  else if r = "flightperiod" then (process_flightperiod org leaf.files).map (fun x => x.2)
  else if r = "period" then (process_period org leaf.files).map (fun x => x.2)
  else if r = "range" then (process_range org leaf.files).map (fun x => x.2)
  else if r = "seasonalperiod" then (process_seasonalperiod org leaf.files).map (fun x => x.2)
  else if r = "tenkm" then (process_tenkm org leaf.files).map (fun x => x.2)
  else Except.ok false

/-- The `for rule in rules` loop of `read_rules`: `rv` is overwritten by
each leaf's result, so only the last leaf's result survives. -/
def foldLeaves (org : String) : Bool → List LeafF → Except PyErr Bool
  | rv, [] => Except.ok rv
  | _, l :: ls =>
    match dispatchLeaf org l with
    | Except.ok rv' => foldLeaves org rv' ls
    | Except.error e => Except.error e

/-- The no-subfolder fall-back of `read_rules` (lines 507-516): substring
match on the group's base name. -/
def groupFallback (org : String) (g : GroupF) : Except PyErr Bool :=
  let r := pyToLower g.name
  if inStr "period" r then (process_period org g.files).map (fun x => x.2)
  else if inStr "range" r then (process_range org g.files).map (fun x => x.2)
  else Except.ok false

/-- The `for group in groups` loop of `read_rules`. -/
def foldGroups (org : String) : Bool → List GroupF → Except PyErr Bool
  | rv, [] => Except.ok rv
  | rv, g :: gs =>
    match (if g.leaves.isEmpty then groupFallback org g else foldLeaves org rv g.leaves) with
    | Except.ok rv' => foldGroups org rv' gs
    | Except.error e => Except.error e

/-- Process one top-level folder of `read_rules`: a name containing
`_idifficulty` routes the subtree to the difficulty grammar, otherwise the
groups are walked with the flag starting at `True`. -/
def processTop (org : String) (t : TopF) : Except PyErr Bool :=
  if inStr "_idifficulty" (pyToLower t.name) then
    (process_difficulty org t.dfiles).map (fun x => x.2)
  else foldGroups org true t.groups

/-- The `for folder in folders` loop of `read_rules`: `ok` is cleared
whenever a folder's final flag is `False`. -/
def readGo (org : String) : Bool → List TopF → Except PyErr Bool
  | ok, [] => Except.ok ok
  | ok, t :: ts =>
    match processTop org t with
    | Except.ok rv => readGo org (ok && rv) ts
    | Except.error e => Except.error e

/-- `RuleParser.read_rules` (lines 486-540): `org` is the base name of the
root folder; an empty root returns `False`. -/
def read_rules (org : String) (folders : List TopF) : Except PyErr Bool :=
  if folders.isEmpty then Except.ok false
  else readGo org true folders

/-- The seven per-kind rule lists accumulated by a `RuleParser`. -/
structure ParserState where
  additionals : List Dict
  difficulties : List Dict
  flights : List Dict
  periods : List Dict
  ranges : List Dict
  regions : List Dict
  seasonals : List Dict
deriving DecidableEq

/-- `RuleOutput.create_consol_record` (RuleOutput.py lines 38-62): build a
fresh record — always appended to `consol`, never fetched — with `id` one
past the current length (Python stores the integer; the embedding stores
its decimal string), the upper-cased taxon key, and every variant field
defaulted to the empty string. -/
def create_consol_record (consol_len : Nat) (taxon_key ruleset : String)
    (rule : Dict) : Dict :=
  [("id", toString (consol_len + 1)),
   ("taxon_key", pyToUpper taxon_key),
   ("ruleset", ruleset),
   ("organisation", getS rule "organisation"),
   ("message", getS rule "message"),
   ("information", ""),
   ("difficulty_key", ""),
   ("start_date", ""),
   ("end_date", ""),
   ("stage", ""),
   ("10km_GB", ""),
   ("10km_Ireland", ""),
   ("10km_CI", "")]

/-- The kind-specific mutation applied after creating an `additional`
consolidated record. -/
def setAdditional (rule record : Dict) : Dict :=
  dset record "information" (getS rule "information")

/-- The kind-specific mutation for `difficulty`. -/
def setDifficulty (rule record : Dict) : Dict :=
  dset record "difficulty_key" (getS rule "difficulty_key")

/-- The kind-specific mutation for `flightperiod`. -/
def setFlightperiod (rule record : Dict) : Dict :=
  dset (dset (dset record "start_date" (getS rule "start_date"))
    "end_date" (getS rule "end_date")) "stage" (getS rule "stage")

/-- The kind-specific mutation for `period` (no `stage`). -/
def setPeriod (rule record : Dict) : Dict :=
  dset (dset record "start_date" (getS rule "start_date"))
    "end_date" (getS rule "end_date")

/-- The kind-specific mutation for `range` and `region`. -/
def setGrid (rule record : Dict) : Dict :=
  dset (dset (dset record "10km_GB" (getS rule "10km_GB"))
    "10km_Ireland" (getS rule "10km_Ireland")) "10km_CI" (getS rule "10km_CI")

/-- The kind-specific mutation for `seasonal`. -/
def setSeasonal (rule record : Dict) : Dict :=
  dset (dset (dset record "start_date" (getS rule "start_date"))
    "end_date" (getS rule "end_date")) "stage" (getS rule "stage")

/-- One `for rule in <kind list>` loop of `RuleOutput.populate_consol`:
for each rule, create a fresh record (appended to `consol`), then apply
the kind's field mutation to the record just appended. -/
def consolKindStep (ruleset : String) (setSpec : Dict → Dict → Dict)
    (consol : List Dict) (rules : List Dict) : List Dict :=
  rules.foldl (fun acc rule =>
    acc ++ [setSpec rule
      (create_consol_record acc.length (getS rule "taxon_key") ruleset rule)]) consol

/-- `RuleOutput.populate_consol` (RuleOutput.py lines 67-118): the seven
kind lists folded in the fixed source order. -/
def populate_consol (p : ParserState) : List Dict :=
  let c := consolKindStep "additional" setAdditional [] p.additionals
  let c := consolKindStep "difficulty" setDifficulty c p.difficulties
  let c := consolKindStep "flightperiod" setFlightperiod c p.flights
  let c := consolKindStep "period" setPeriod c p.periods
  let c := consolKindStep "range" setGrid c p.ranges
  let c := consolKindStep "region" setGrid c p.regions
  consolKindStep "seasonal" setSeasonal c p.seasonals

/-- The field schema shared by every consolidated record. -/
def consolKeys : List String :=
  ["id", "taxon_key", "ruleset", "organisation", "message", "information",
   "difficulty_key", "start_date", "end_date", "stage", "10km_GB",
   "10km_Ireland", "10km_CI"]

theorem consolKindStep_length (rs : String) (f : Dict → Dict → Dict)
    (l : List Dict) : ∀ acc : List Dict,
    (consolKindStep rs f acc l).length = acc.length + l.length := by
  induction l with
  | nil => intro acc; rfl
  | cons q l ih =>
    intro acc
    show (consolKindStep rs f (acc ++ [_]) l).length = _
    rw [ih]
    simp
    omega

theorem consolKindStep_keys (rs : String) (f : Dict → Dict → Dict)
    (hf : ∀ rule n, dkeys (f rule
      (create_consol_record n (getS rule "taxon_key") rs rule)) = consolKeys)
    (l : List Dict) : ∀ acc : List Dict,
    (∀ r ∈ acc, dkeys r = consolKeys) →
    ∀ r ∈ consolKindStep rs f acc l, dkeys r = consolKeys := by
  induction l with
  | nil => intro acc hacc r hr; exact hacc r hr
  | cons q l ih =>
    intro acc hacc r hr
    refine ih (acc ++ [f q (create_consol_record acc.length (getS q "taxon_key") rs q)])
      ?_ r hr
    intro x hx
    rcases List.mem_append.mp hx with h | h
    · exact hacc x h
    · rw [List.mem_singleton.mp h]
      exact hf q acc.length

theorem keys_setAdditional (rs t : String) (rule : Dict) (n : Nat) :
    dkeys (setAdditional rule (create_consol_record n t rs rule)) = consolKeys := rfl

theorem keys_setDifficulty (rs t : String) (rule : Dict) (n : Nat) :
    dkeys (setDifficulty rule (create_consol_record n t rs rule)) = consolKeys := rfl

theorem keys_setFlightperiod (rs t : String) (rule : Dict) (n : Nat) :
    dkeys (setFlightperiod rule (create_consol_record n t rs rule)) = consolKeys := rfl

theorem keys_setPeriod (rs t : String) (rule : Dict) (n : Nat) :
    dkeys (setPeriod rule (create_consol_record n t rs rule)) = consolKeys := rfl

theorem keys_setGrid (rs t : String) (rule : Dict) (n : Nat) :
    dkeys (setGrid rule (create_consol_record n t rs rule)) = consolKeys := rfl

theorem keys_setSeasonal (rs t : String) (rule : Dict) (n : Nat) :
    dkeys (dset (dset (dset (create_consol_record n t rs rule)
      "start_date" (getS rule "start_date")) "end_date" (getS rule "end_date"))
      "stage" (getS rule "stage")) = consolKeys := rfl

/-- A parser state exhibiting two rules — an additional and a difficulty
rule — whose taxon keys agree up to case. -/
def c1Parser : ParserState :=
  { additionals := [[("taxon_key", "NHMSYS001"), ("organisation", "OrgA"),
      ("message", "m1"), ("information", "i1")]],
    difficulties := [[("taxon_key", "nhmsys001"), ("organisation", "OrgB"),
      ("message", "m2"), ("difficulty_key", "2")]],
    flights := [], periods := [], ranges := [], regions := [], seasonals := [] }

/-- C1 counterexample: consolidation does not build one record per distinct
taxon key — `create_consol_record` always appends a fresh record, so two
rules over the same (case-normalised) taxon key yield two consolidated
records, not one. -/
theorem c1_counterexample :
    (populate_consol c1Parser).length = 2 ∧
    (populate_consol c1Parser).map (fun r => getS r "taxon_key")
      = ["NHMSYS001", "NHMSYS001"] := ⟨rfl, rfl⟩

/-- C1 amended: iterating the seven lists in the fixed kind order
additional, difficulty, flightperiod, period, range, region, seasonal, the
engine appends exactly one fresh `ConsolidatedRecord` per rule (never
fetching an existing one), setting the common fields and that kind's
specific fields and leaving every other field at its empty-string default,
so every record carries the full fixed field schema. -/
theorem c1_one_record_per_rule (p : ParserState) :
    (populate_consol p).length =
      p.additionals.length + p.difficulties.length + p.flights.length +
      p.periods.length + p.ranges.length + p.regions.length + p.seasonals.length
    ∧ ∀ r ∈ populate_consol p, dkeys r = consolKeys := by
  constructor
  · simp only [populate_consol, consolKindStep_length, List.length_nil]
    omega
  · intro r hr
    unfold populate_consol at hr
    refine consolKindStep_keys _ _ (fun q n => keys_setSeasonal _ _ q n) _ _ ?_ r hr
    intro r hr
    refine consolKindStep_keys _ _ (fun q n => keys_setGrid _ _ q n) _ _ ?_ r hr
    intro r hr
    refine consolKindStep_keys _ _ (fun q n => keys_setGrid _ _ q n) _ _ ?_ r hr
    intro r hr
    refine consolKindStep_keys _ _ (fun q n => keys_setPeriod _ _ q n) _ _ ?_ r hr
    intro r hr
    refine consolKindStep_keys _ _ (fun q n => keys_setFlightperiod _ _ q n) _ _ ?_ r hr
    intro r hr
    refine consolKindStep_keys _ _ (fun q n => keys_setDifficulty _ _ q n) _ _ ?_ r hr
    intro r hr
    refine consolKindStep_keys _ _ (fun q n => keys_setAdditional _ _ q n) _ _ ?_ r hr
    intro x hx
    exact absurd hx (List.not_mem_nil x)

/-- Closed instance of `c1_one_record_per_rule` at a concrete parser
state. -/
theorem c1_one_record_per_rule_witness :
    (populate_consol c1Parser).length = 1 + 1 + 0 + 0 + 0 + 0 + 0 ∧
    ∃ r ∈ populate_consol c1Parser, dkeys r = consolKeys := by
  refine ⟨(c1_one_record_per_rule c1Parser).1, ⟨(populate_consol c1Parser).headD [], ?_, ?_⟩⟩
  · decide
  · exact (c1_one_record_per_rule c1Parser).2 _ (by decide)

theorem consolKindStep_taxon_upper (rs : String) (f : Dict → Dict → Dict)
    (hf : ∀ rule n, dget (f rule
      (create_consol_record n (getS rule "taxon_key") rs rule)) "taxon_key"
      = some (pyToUpper (getS rule "taxon_key")))
    (l : List Dict) : ∀ acc : List Dict,
    (∀ r ∈ acc, ∃ s, dget r "taxon_key" = some (pyToUpper s)) →
    ∀ r ∈ consolKindStep rs f acc l, ∃ s, dget r "taxon_key" = some (pyToUpper s) := by
  induction l with
  | nil => intro acc hacc r hr; exact hacc r hr
  | cons q l ih =>
    intro acc hacc r hr
    refine ih (acc ++ [f q (create_consol_record acc.length (getS q "taxon_key") rs q)])
      ?_ r hr
    intro x hx
    rcases List.mem_append.mp hx with h | h
    · exact hacc x h
    · rw [List.mem_singleton.mp h]
      exact ⟨getS q "taxon_key", hf q acc.length⟩

theorem tk_setAdditional (rs t : String) (rule : Dict) (n : Nat) :
    dget (setAdditional rule (create_consol_record n t rs rule)) "taxon_key"
      = some (pyToUpper t) := rfl

theorem tk_setDifficulty (rs t : String) (rule : Dict) (n : Nat) :
    dget (setDifficulty rule (create_consol_record n t rs rule)) "taxon_key"
      = some (pyToUpper t) := rfl

theorem tk_setFlightperiod (rs t : String) (rule : Dict) (n : Nat) :
    dget (setFlightperiod rule (create_consol_record n t rs rule)) "taxon_key"
      = some (pyToUpper t) := rfl

theorem tk_setPeriod (rs t : String) (rule : Dict) (n : Nat) :
    dget (setPeriod rule (create_consol_record n t rs rule)) "taxon_key"
      = some (pyToUpper t) := rfl

theorem tk_setGrid (rs t : String) (rule : Dict) (n : Nat) :
    dget (setGrid rule (create_consol_record n t rs rule)) "taxon_key"
      = some (pyToUpper t) := rfl

theorem tk_setSeasonal (rs t : String) (rule : Dict) (n : Nat) :
    dget (setSeasonal rule (create_consol_record n t rs rule)) "taxon_key"
      = some (pyToUpper t) := rfl

/-- An additional-rules file whose `[Data]` taxon key is lower-case (as the
reader stores every option key). -/
def c8File : Config :=
  [("Metadata", [("testtype", "AncillarySpecies"), ("errormsg", "msg8")]),
   ("INI", [("code1", "text one")]),
   ("Data", [("ab1234", "code1")])]

/-- C8 counterexample: taxon keys are not case-normalised on ingestion —
the additional grammar appends the `[Data]` key exactly as the reader
stores it (lower-case), so the ParsedRule list carries a taxon key that is
not upper-case. -/
theorem c8_counterexample :
    process_additional "OrgA" [c8File] =
      Except.ok ([[("taxon_key", "ab1234"), ("organisation", "OrgA"),
        ("message", "msg8"), ("information", "text one")]], true)
    ∧ pyToUpper "ab1234" ≠ "ab1234" := ⟨rfl, by decide⟩

/-- C8 amended: upper-casing happens only at consolidation:
`create_consol_record` stores the upper-cased taxon key, so every
consolidated record's `taxon_key` is the upper-casing of its source rule's
key (ParsedRules themselves keep the key as read, and case variants of one
key yield distinct records — one per rule — with equal `taxon_key`
strings). -/
theorem c8_consol_upper (p : ParserState) :
    ∀ r ∈ populate_consol p, ∃ s, dget r "taxon_key" = some (pyToUpper s) := by
  intro r hr
  unfold populate_consol at hr
  refine consolKindStep_taxon_upper _ _ (fun q n => tk_setSeasonal _ _ q n) _ _ ?_ r hr
  intro r hr
  refine consolKindStep_taxon_upper _ _ (fun q n => tk_setGrid _ _ q n) _ _ ?_ r hr
  intro r hr
  refine consolKindStep_taxon_upper _ _ (fun q n => tk_setGrid _ _ q n) _ _ ?_ r hr
  intro r hr
  refine consolKindStep_taxon_upper _ _ (fun q n => tk_setPeriod _ _ q n) _ _ ?_ r hr
  intro r hr
  refine consolKindStep_taxon_upper _ _ (fun q n => tk_setFlightperiod _ _ q n) _ _ ?_ r hr
  intro r hr
  refine consolKindStep_taxon_upper _ _ (fun q n => tk_setDifficulty _ _ q n) _ _ ?_ r hr
  intro r hr
  refine consolKindStep_taxon_upper _ _ (fun q n => tk_setAdditional _ _ q n) _ _ ?_ r hr
  intro x hx
  exact absurd hx (List.not_mem_nil x)

/-- A parser state with a single lower-case-keyed additional rule. -/
def c8Parser : ParserState :=
  { additionals := [[("taxon_key", "ab1234"), ("organisation", "OrgA"),
      ("message", "msg8"), ("information", "text one")]],
    difficulties := [], flights := [], periods := [], ranges := [],
    regions := [], seasonals := [] }

/-- Closed instance of `c8_consol_upper` at a concrete parser state. -/
theorem c8_consol_upper_witness :
    ∃ r ∈ populate_consol c8Parser, ∃ s, dget r "taxon_key" = some (pyToUpper s) :=
  ⟨(populate_consol c8Parser).headD [], by decide,
    c8_consol_upper c8Parser _ (by decide)⟩

/-- An additional-rules file with `[INI]` and `[Data]` but no `[Metadata]`. -/
def c5File : Config :=
  [("INI", [("code1", "text one")]),
   ("Data", [("ab1234", "code1")])]

/-- C5: evaluation of the code bug — a first additional-rules file that
lacks `[Metadata]` but has `[INI]` and `[Data]` makes the `[Data]` loop
read the never-assigned local `error_msg`, raising `NameError` and
aborting the run instead of flagging the file and continuing. -/
theorem c5_crash_eval :
    process_additional "OrgA" [c5File] =
      Except.error (PyErr.nameError "error_msg") := rfl

/-- A flightperiod file whose `[Data]` `Stage` array has two elements but
whose `StartDate`/`EndDate` arrays have one. -/
def c4FileLong : Config :=
  [("Metadata", [("testtype", "PeriodWithinYear"), ("tvk", "T1"),
     ("errormsg", "m4"), ("startdate", "1/1"), ("enddate", "31/12")]),
   ("Data", [("stage", "adult\nlarva"), ("startdate", "1/4"), ("enddate", "30/9")])]

/-- A flightperiod file whose `[Data]` `Stage` array has one element but
whose `StartDate`/`EndDate` arrays have two. -/
def c4FileShort : Config :=
  [("Metadata", [("testtype", "PeriodWithinYear"), ("tvk", "T1"),
     ("errormsg", "m4"), ("startdate", "1/1"), ("enddate", "31/12")]),
   ("Data", [("stage", "adult"), ("startdate", "1/4\n1/5"), ("enddate", "30/9\n30/10")])]

/-- C4: evaluation of the code bug — the `[Data]` loop ranges over the
`Stage` array with no length check, so when `Stage` is longer than the
date arrays the indexing raises `IndexError` (aborting the run), and when
`Stage` is shorter the loop silently emits `len(Stage)` stage rules with
the success flag still `True`; in neither case are zero `[Data]` rules
emitted with the file flagged failed. -/
theorem c4_crash_eval :
    process_flightperiod "OrgF" [c4FileLong] = Except.error PyErr.indexError
    ∧ process_flightperiod "OrgF" [c4FileShort] =
        Except.ok ([[("taxon_key", "T1"), ("organisation", "OrgF"),
          ("message", "m4"), ("start_date", "1/1"), ("end_date", "31/12"),
          ("stage", "")],
         [("taxon_key", "T1"), ("organisation", "OrgF"),
          ("message", "m4"), ("start_date", "1/4"), ("end_date", "30/9"),
          ("stage", "adult")]], true) := ⟨rfl, rfl⟩

/-- A period file whose `Metadata.TestType` does not match `period`. -/
def c6FileBad : Config :=
  [("Metadata", [("testtype", "WrongType")])]

/-- A fully valid period file. -/
def c6FileGood : Config :=
  [("Metadata", [("testtype", "Period"), ("tvk", "T6"), ("errormsg", "m6"),
     ("startdate", "1/1"), ("enddate", "31/12")])]

/-- C6 counterexample: in the period grammar a `TestType` mismatch does
not skip just the offending file — `process_period_generic` returns
`False` immediately, so a valid file later in the same folder (which
alone yields its rule) is never processed. -/
theorem c6_counterexample :
    process_period "OrgP" [c6FileBad, c6FileGood] = Except.ok ([], false)
    ∧ process_period "OrgP" [c6FileGood] =
        Except.ok ([[("taxon_key", "T6"), ("organisation", "OrgP"),
          ("message", "m6"), ("start_date", "1/1"), ("end_date", "31/12")]],
          true) := ⟨rfl, rfl⟩

/-- A valid additional-rules file for the dispatcher example. -/
def c7File : Config :=
  [("Metadata", [("testtype", "AncillarySpecies"), ("errormsg", "msg7")]),
   ("INI", [("code1", "info one")]),
   ("Data", [("ab7", "code1")])]

/-- An organisation tree with one top folder holding one group whose first
leaf has an unrecognised name and whose second leaf is a valid
`additional` folder. -/
def c7Tree : List TopF :=
  [⟨"GroupRules", [⟨"inverts", [⟨"bogus", []⟩, ⟨"additional", [c7File]⟩], []⟩], []⟩]

/-- C7 counterexample: `read_rules` overwrites its per-folder flag with
each leaf's result, so an unrecognised leaf folder (an error, dispatched
to `False`) followed by a successful leaf in the same group yields an
aggregate `True`. -/
theorem c7_counterexample :
    read_rules "OrgA" c7Tree = Except.ok true
    ∧ dispatchLeaf "OrgA" ⟨"bogus", []⟩ = Except.ok false := ⟨rfl, rfl⟩

/-- A flightperiod file whose `[Metadata]` lacks `Tvk`. -/
def c2File : Config :=
  [("Metadata", [("testtype", "PeriodWithinYear"), ("errormsg", "m2"),
     ("startdate", "1/1"), ("enddate", "31/12")])]

/-- C2 counterexample: the flightperiod grammar appends its base rule even
when a required field is unresolved — a file without `Tvk` yields an
appended rule whose `taxon_key` is the `<ERROR>` sentinel (the file is
flagged, but the rule is in the output list). -/
theorem c2_counterexample :
    flightperiodFile "BC" c2File =
      FileOutcome.ok [[("taxon_key", ERROR), ("organisation", "BC"),
        ("message", "m2"), ("start_date", "1/1"), ("end_date", "31/12"),
        ("stage", "")]] false := rfl

/-- C9 counterexample: the doubled-blank-line collapse is a single
non-overlapping pass, so a value with two consecutive blank lines (three
newlines) still splits with a spurious empty element. -/
theorem c9_counterexample :
    splitArr "a\n\n\nb" = ["a", "", "b"] ∧ "" ∈ splitArr "a\n\n\nb" :=
  ⟨rfl, by decide⟩

theorem runFiles_difficulty (org : String) (fs : List Config) :
    ∀ (acc : List Dict) (rv : Bool),
    runFiles (fun (_u : Unit) cfg =>
      let d := difficultyFile org cfg
      ((), FileOutcome.ok d.1 d.2)) () fs acc rv =
    Except.ok (acc ++ (fs.map (fun c => (difficultyFile org c).1)).flatten,
      rv && fs.all (fun c => (difficultyFile org c).2)) := by
  induction fs with
  | nil => intro acc rv; simp [runFiles]
  | cons f fs ih =>
    intro acc rv
    simp only [runFiles, List.map_cons, List.flatten, List.all_cons]
    rw [ih]
    simp [Bool.and_assoc]

/-- C6 amended: per-file recovery holds for the difficulty grammar (every
file of the folder is processed and contributes its rules, failures only
clearing the aggregate flag), but the period/seasonal grammars abort the
whole folder on a `TestType` mismatch: the remaining files are never
processed and no record at all is emitted for the folder. -/
theorem c6_per_file_recovery :
    (∀ (org : String) (files : List Config), files ≠ [] →
      process_difficulty org files =
        Except.ok ((files.map (fun c => (difficultyFile org c).1)).flatten,
          files.all (fun c => (difficultyFile org c).2)))
    ∧ (∀ (org test_type : String) (cfg : Config) (rest : List Config),
        hasSection cfg "Metadata" = true →
        ¬ (pyToLower (sget cfg "Metadata" "TestType" ERROR) = pyToLower test_type) →
        process_period_generic org test_type (cfg :: rest) = Except.ok ([], false)) := by
  constructor
  · intro org files hne
    unfold process_difficulty
    rw [if_neg (by simpa using hne)]
    rw [runFiles_difficulty]
    simp
  · intro org test_type cfg rest hm htt
    have hstep : periodGenericFile org test_type cfg = FileOutcome.abort [] := by
      unfold periodGenericFile
      rw [hm]
      simp only [if_pos htt, if_true]
    unfold process_period_generic
    rw [if_neg (by simp)]
    simp only [runFiles, hstep]
    simp

/-- Closed instance of `c6_per_file_recovery` at concrete folders. -/
theorem c6_per_file_recovery_witness :
    process_difficulty "OrgD" [c6FileBad] =
      Except.ok (([c6FileBad].map (fun c => (difficultyFile "OrgD" c).1)).flatten,
        [c6FileBad].all (fun c => (difficultyFile "OrgD" c).2))
    ∧ process_period_generic "OrgP" "period" [c6FileBad, c6FileGood] =
        Except.ok ([], false) :=
  ⟨c6_per_file_recovery.1 "OrgD" [c6FileBad] (by decide),
   c6_per_file_recovery.2 "OrgP" "period" c6FileBad [c6FileGood]
     (by decide) (by decide)⟩

theorem readGo_ok_iff (org : String) :
    ∀ (tops : List TopF) (ok b : Bool),
    readGo org ok tops = Except.ok b →
    (b = true ↔ ok = true ∧ ∀ t ∈ tops, processTop org t = Except.ok true) := by
  intro tops
  induction tops with
  | nil =>
    intro ok b h
    simp only [readGo, Except.ok.injEq] at h
    simp [h]
  | cons t ts ih =>
    intro ok b h
    simp only [readGo] at h
    cases hpt : processTop org t with
    | error e => rw [hpt] at h; exact absurd h (by simp)
    | ok rv =>
      rw [hpt] at h
      have := ih (ok && rv) b h
      rw [this]
      simp only [List.forall_mem_cons, hpt, Except.ok.injEq, Bool.and_eq_true]
      tauto

/-- C7 amended: `read_rules` returns the conjunction over top-level
subfolders of a per-folder flag, but within a folder that flag is
overwritten by each successive grammar invocation, so it reflects only the
last leaf processed; the aggregate is `True` exactly when the root is
non-empty and every top folder's final (last-leaf) flag is `True`. -/
theorem c7_last_leaf_wins (org : String) (tops : List TopF) (b : Bool)
    (h : read_rules org tops = Except.ok b) :
    b = true ↔ tops ≠ [] ∧ ∀ t ∈ tops, processTop org t = Except.ok true := by
  unfold read_rules at h
  cases htop : tops.isEmpty
  · rw [htop] at h
    simp only [Bool.false_eq_true, if_false] at h
    have hne : tops ≠ [] := by
      intro hc; rw [hc] at htop; simp at htop
    rw [readGo_ok_iff org tops true b h]
    simp [hne]
  · rw [htop] at h
    simp only [if_true] at h
    have hb : b = false := by
      simp only [Except.ok.injEq] at h
      exact h.symm
    subst hb
    have : tops = [] := List.isEmpty_iff.mp htop
    simp [this]

/-- Closed instance of `c7_last_leaf_wins` at the concrete tree. -/
theorem c7_last_leaf_wins_witness :
    true = true ↔ c7Tree ≠ [] ∧ ∀ t ∈ c7Tree, processTop "OrgA" t = Except.ok true :=
  c7_last_leaf_wins "OrgA" c7Tree true rfl

theorem dget_mkStageRule_tk (tvk org em s e st : String) :
    dget (mkStageRule tvk org em s e st) "taxon_key" = some tvk := rfl

theorem dget_mkStageRule_msg (tvk org em s e st : String) :
    dget (mkStageRule tvk org em s e st) "message" = some em := rfl

theorem dget_mkStageRule_sd (tvk org em s e st : String) :
    dget (mkStageRule tvk org em s e st) "start_date" = some s := rfl

theorem dget_mkStageRule_ed (tvk org em s e st : String) :
    dget (mkStageRule tvk org em s e st) "end_date" = some e := rfl

theorem dget_mkPeriodBase_tk (tvk org em sd ed : String) (w : Bool) :
    dget (mkPeriodBase tvk org em sd ed w) "taxon_key" = some tvk := rfl

theorem dget_mkPeriodBase_msg (tvk org em sd ed : String) (w : Bool) :
    dget (mkPeriodBase tvk org em sd ed w) "message" = some em := rfl

theorem dget_mkPeriodBase_sd (tvk org em sd ed : String) (w : Bool) :
    dget (mkPeriodBase tvk org em sd ed w) "start_date" = some sd := rfl

theorem dget_mkPeriodBase_ed (tvk org em sd ed : String) (w : Bool) :
    dget (mkPeriodBase tvk org em sd ed w) "end_date" = some ed := rfl

theorem zipStages_mem (tvk org em : String) :
    ∀ (s ss es : List String) (r : Dict),
    r ∈ (zipStages tvk org em s ss es).1 →
    ∃ st sv ev, st ∈ s ∧ sv ∈ ss ∧ ev ∈ es ∧ r = mkStageRule tvk org em sv ev st := by
  intro s
  induction s with
  | nil => intro ss es r hr; simp [zipStages] at hr
  | cons st sts ih =>
    intro ss es r hr
    cases ss with
    | nil => simp [zipStages] at hr
    | cons sv ss' =>
      cases es with
      | nil => simp [zipStages] at hr
      | cons ev es' =>
        simp only [zipStages] at hr
        rcases List.mem_cons.mp hr with h | h
        · exact ⟨st, sv, ev, by simp, by simp, by simp, h⟩
        · obtain ⟨st', sv', ev', h1, h2, h3, h4⟩ := ih ss' es' r h
          exact ⟨st', sv', ev', by simp [h1], by simp [h2], by simp [h3], h4⟩

/-- C2 amended: in the period and seasonal grammars no rule carrying the
`<ERROR>` sentinel in a required field (`taxon_key`, `message`,
`start_date`, `end_date`) is ever appended — the routine returns before
appending when a required metadata field is unresolved, and checks the
`[Data]` arrays for the sentinel before zipping.  (The flightperiod and
range/region grammars, by contrast, do append sentinel-carrying rules, as
the counterexample shows; taxon keys can also be empty when a field is
present but valueless.) -/
theorem c2_period_no_sentinel (org test_type : String) (cfg : Config) :
    ∀ r ∈ outRules (periodGenericFile org test_type cfg),
      dget r "taxon_key" ≠ some ERROR ∧ dget r "message" ≠ some ERROR ∧
      dget r "start_date" ≠ some ERROR ∧ dget r "end_date" ≠ some ERROR := by
  intro r hr
  unfold periodGenericFile at hr
  cases hm : hasSection cfg "Metadata"
  · rw [hm] at hr
    simp [outRules] at hr
  · rw [hm] at hr
    simp only [if_true] at hr
    split at hr
    · simp [outRules] at hr
    · split at hr
      · simp [outRules] at hr
      · rename_i hreq
        push_neg at hreq
        obtain ⟨hem, htvk, hsd, hed⟩ := hreq
        split at hr
        · split at hr
          · -- abort [base]
            simp only [outRules, List.mem_singleton] at hr
            subst hr
            simp [dget_mkPeriodBase_tk, dget_mkPeriodBase_msg,
              dget_mkPeriodBase_sd, dget_mkPeriodBase_ed,
              htvk, hem, hsd, hed]
          · rename_i herr
            push_neg at herr
            obtain ⟨he1, he2, he3⟩ := herr
            split at hr <;>
            · simp only [outRules, List.mem_cons] at hr
              rcases hr with hr | hr
              · subst hr
                simp [dget_mkPeriodBase_tk, dget_mkPeriodBase_msg,
                  dget_mkPeriodBase_sd, dget_mkPeriodBase_ed,
                  htvk, hem, hsd, hed]
              · obtain ⟨st', sv', ev', hst, hsv, hev, hrule⟩ :=
                  zipStages_mem _ _ _ _ _ _ r hr
                subst hrule
                refine ⟨by simp [dget_mkStageRule_tk, htvk], ?_, ?_, ?_⟩
                · simp [dget_mkStageRule_msg, hem]
                · simp only [dget_mkStageRule_sd]
                  intro hc
                  have hceq : sv' = ERROR := by simpa using hc
                  exact he2 (hceq ▸ hsv)
                · simp only [dget_mkStageRule_ed]
                  intro hc
                  have hceq : ev' = ERROR := by simpa using hc
                  exact he3 (hceq ▸ hev)
        · -- no Data section: only the base rule
          simp only [outRules, List.mem_singleton] at hr
          subst hr
          simp [dget_mkPeriodBase_tk, dget_mkPeriodBase_msg,
            dget_mkPeriodBase_sd, dget_mkPeriodBase_ed,
            htvk, hem, hsd, hed]

/-- A fully valid period file for the closed instance. -/
def c2WFile : Config :=
  [("Metadata", [("testtype", "Period"), ("tvk", "T2"), ("errormsg", "em2"),
     ("startdate", "1/2"), ("enddate", "28/2")])]

/-- Closed instance of `c2_period_no_sentinel` at a concrete file. -/
theorem c2_period_no_sentinel_witness :
    ∃ r ∈ outRules (periodGenericFile "OrgP" "period" c2WFile),
      dget r "taxon_key" ≠ some ERROR ∧ dget r "message" ≠ some ERROR ∧
      dget r "start_date" ≠ some ERROR ∧ dget r "end_date" ≠ some ERROR :=
  ⟨(outRules (periodGenericFile "OrgP" "period" c2WFile)).headD [], by decide,
   c2_period_no_sentinel "OrgP" "period" c2WFile _ (by decide)⟩

/-- Three-way positional zip, used to state what the stage loops build. -/
def zip3With {α β γ δ : Type} (f : α → β → γ → δ) :
    List α → List β → List γ → List δ
  | a :: as, b :: bs, c :: cs => f a b c :: zip3With f as bs cs
  | _, _, _ => []

theorem zip3With_length {α β γ δ : Type} (f : α → β → γ → δ) :
    ∀ (a : List α) (b : List β) (c : List γ),
    a.length = b.length → a.length = c.length →
    (zip3With f a b c).length = a.length := by
  intro a
  induction a with
  | nil => intro b c h1 h2; simp [zip3With]
  | cons x a ih =>
    intro b c h1 h2
    cases b with
    | nil => simp at h1
    | cons y b =>
      cases c with
      | nil => simp at h2
      | cons z c =>
        simp only [zip3With, List.length_cons]
        rw [ih b c (by simpa using h1) (by simpa using h2)]

theorem zipStages_complete (tvk org em : String) :
    ∀ (s ss es : List String), s.length = ss.length → s.length = es.length →
    zipStages tvk org em s ss es =
      (zip3With (fun st sv ev => mkStageRule tvk org em sv ev st) s ss es, none) := by
  intro s
  induction s with
  | nil => intro ss es h1 h2; simp [zipStages, zip3With]
  | cons st sts ih =>
    intro ss es h1 h2
    cases ss with
    | nil => simp at h1
    | cons sv ss' =>
      cases es with
      | nil => simp at h2
      | cons ev es' =>
        simp only [zipStages, zip3With]
        rw [ih ss' es' (by simpa using h1) (by simpa using h2)]

/-- C3: for a FlightPeriod, Period or Seasonal file whose metadata fields
all resolve (with the expected `TestType`) and whose `[Data]` section
holds `n`-element parallel `Stage`/`StartDate`/`EndDate` arrays, exactly
`n + 1` rules are appended — the base rule followed by the positional zip
of the three arrays — all carrying the file's taxon key, organisation and
message. -/
theorem c3_stage_rules :
    (∀ (org : String) (cfg : Config) (tvk em sd ed : String)
       (stageL sdL edL : List String) (n : Nat),
      hasSection cfg "Metadata" = true →
      sget cfg "Metadata" "TestType" ERROR = "PeriodWithinYear" →
      sget cfg "Metadata" "Tvk" ERROR = tvk → tvk ≠ ERROR →
      sget cfg "Metadata" "ErrorMsg" ERROR = em → em ≠ ERROR →
      sget cfg "Metadata" "StartDate" ERROR = sd → sd ≠ ERROR →
      sget cfg "Metadata" "EndDate" ERROR = ed → ed ≠ ERROR →
      hasSection cfg "Data" = true → secItems cfg "Data" ≠ [] →
      splitArr (sget cfg "Data" "Stage" ERROR) = stageL →
      splitArr (sget cfg "Data" "StartDate" ERROR) = sdL →
      splitArr (sget cfg "Data" "EndDate" ERROR) = edL →
      ERROR ∉ stageL → ERROR ∉ sdL → ERROR ∉ edL →
      stageL.length = n → sdL.length = n → edL.length = n →
      flightperiodFile org cfg =
        FileOutcome.ok (mkStageRule tvk org em sd ed "" ::
          zip3With (fun st sv ev => mkStageRule tvk org em sv ev st)
            stageL sdL edL) true
      ∧ (outRules (flightperiodFile org cfg)).length = n + 1)
    ∧ (∀ (org test_type : String) (cfg : Config) (tvk em sd ed : String)
       (stageL sdL edL : List String) (n : Nat),
      hasSection cfg "Metadata" = true →
      pyToLower (sget cfg "Metadata" "TestType" ERROR) = pyToLower test_type →
      sget cfg "Metadata" "Tvk" ERROR = tvk → tvk ≠ ERROR →
      sget cfg "Metadata" "ErrorMsg" ERROR = em → em ≠ ERROR →
      sget cfg "Metadata" "StartDate" ERROR = sd → sd ≠ ERROR →
      sget cfg "Metadata" "EndDate" ERROR = ed → ed ≠ ERROR →
      hasSection cfg "Data" = true → secItems cfg "Data" ≠ [] →
      splitArr (sget cfg "Data" "Stage" ERROR) = stageL →
      splitArr (sget cfg "Data" "StartDate" ERROR) = sdL →
      splitArr (sget cfg "Data" "EndDate" ERROR) = edL →
      ERROR ∉ stageL → ERROR ∉ sdL → ERROR ∉ edL →
      stageL.length = n → sdL.length = n → edL.length = n →
      periodGenericFile org test_type cfg =
        FileOutcome.ok (mkPeriodBase tvk org em sd ed
            (test_type == "PeriodWithinYear") ::
          zip3With (fun st sv ev => mkStageRule tvk org em sv ev st)
            stageL sdL edL) true
      ∧ (outRules (periodGenericFile org test_type cfg)).length = n + 1) := by
  constructor
  · intro org cfg tvk em sd ed stageL sdL edL n hm htt htvk htvkE hem hemE
      hsd hsdE hed hedE hdata hne hst hsdl hedl he1 he2 he3 hl1 hl2 hl3
    have heq : flightperiodFile org cfg =
        FileOutcome.ok (mkStageRule tvk org em sd ed "" ::
          zip3With (fun st sv ev => mkStageRule tvk org em sv ev st)
            stageL sdL edL) true := by
      unfold flightperiodFile
      rw [hm]
      simp only [if_true, htt, htvk, hem, hsd, hed, hst, hsdl, hedl]
      rw [if_pos ⟨hdata, hne⟩]
      rw [if_neg (by simp [he1, he2, he3])]
      rw [zipStages_complete tvk org em stageL sdL edL
        (hl1.trans hl2.symm) (hl1.trans hl3.symm)]
      simp [htvkE, hemE, hsdE, hedE]
    refine ⟨heq, ?_⟩
    rw [heq]
    simp only [outRules, List.length_cons]
    rw [zip3With_length _ stageL sdL edL (hl1.trans hl2.symm) (hl1.trans hl3.symm), hl1]
  · intro org test_type cfg tvk em sd ed stageL sdL edL n hm htt htvk htvkE hem hemE
      hsd hsdE hed hedE hdata hne hst hsdl hedl he1 he2 he3 hl1 hl2 hl3
    have heq : periodGenericFile org test_type cfg =
        FileOutcome.ok (mkPeriodBase tvk org em sd ed
            (test_type == "PeriodWithinYear") ::
          zip3With (fun st sv ev => mkStageRule tvk org em sv ev st)
            stageL sdL edL) true := by
      unfold periodGenericFile
      rw [hm]
      simp only [if_true, htvk, hem, hsd, hed, hst, hsdl, hedl]
      rw [if_neg (by simp [htt])]
      rw [if_neg (by simp [htvkE, hemE, hsdE, hedE])]
      rw [if_pos ⟨hdata, hne⟩]
      rw [if_neg (by simp [he1, he2, he3])]
      rw [zipStages_complete tvk org em stageL sdL edL
        (hl1.trans hl2.symm) (hl1.trans hl3.symm)]
    refine ⟨heq, ?_⟩
    rw [heq]
    simp only [outRules, List.length_cons]
    rw [zip3With_length _ stageL sdL edL (hl1.trans hl2.symm) (hl1.trans hl3.symm), hl1]

/-- A seasonal/flightperiod file with a two-element parallel stage array,
a blank separator line between the stage blocks. -/
def c3File : Config :=
  [("Metadata", [("testtype", "PeriodWithinYear"), ("tvk", "T3"),
     ("errormsg", "m3"), ("startdate", "1/1"), ("enddate", "31/12")]),
   ("Data", [("stage", "adult\n\nlarva"), ("startdate", "1/4\n\n1/5"),
     ("enddate", "30/9\n\n30/10")])]

/-- Closed instance of `c3_stage_rules` at a concrete file. -/
theorem c3_stage_rules_witness :
    (flightperiodFile "OrgF" c3File =
      FileOutcome.ok (mkStageRule "T3" "OrgF" "m3" "1/1" "31/12" "" ::
        zip3With (fun st sv ev => mkStageRule "T3" "OrgF" "m3" sv ev st)
          ["adult", "larva"] ["1/4", "1/5"] ["30/9", "30/10"]) true
    ∧ (outRules (flightperiodFile "OrgF" c3File)).length = 2 + 1)
    ∧ (periodGenericFile "OrgS" "PeriodWithinYear" c3File =
      FileOutcome.ok (mkPeriodBase "T3" "OrgS" "m3" "1/1" "31/12"
          ("PeriodWithinYear" == "PeriodWithinYear") ::
        zip3With (fun st sv ev => mkStageRule "T3" "OrgS" "m3" sv ev st)
          ["adult", "larva"] ["1/4", "1/5"] ["30/9", "30/10"]) true
    ∧ (outRules (periodGenericFile "OrgS" "PeriodWithinYear" c3File)).length
        = 2 + 1) :=
  ⟨c3_stage_rules.1 "OrgF" c3File "T3" "m3" "1/1" "31/12"
    ["adult", "larva"] ["1/4", "1/5"] ["30/9", "30/10"] 2
    rfl rfl rfl (by decide) rfl (by decide) rfl (by decide) rfl (by decide)
    rfl (by decide) rfl rfl rfl (by decide) (by decide) (by decide) rfl rfl rfl,
   c3_stage_rules.2 "OrgS" "PeriodWithinYear" c3File "T3" "m3" "1/1" "31/12"
    ["adult", "larva"] ["1/4", "1/5"] ["30/9", "30/10"] 2
    rfl rfl rfl (by decide) rfl (by decide) rfl (by decide) rfl (by decide)
    rfl (by decide) rfl rfl rfl (by decide) (by decide) (by decide) rfl rfl rfl⟩

/-- The five-field schema of a period base rule. -/
def periodBaseKeys : List String :=
  ["taxon_key", "organisation", "message", "start_date", "end_date"]

/-- The six-field schema of stage rules and of flightperiod/seasonal base
rules. -/
def stageRuleKeys : List String :=
  ["taxon_key", "organisation", "message", "start_date", "end_date", "stage"]

theorem dkeys_mkStageRule (tvk org em s e st : String) :
    dkeys (mkStageRule tvk org em s e st) = stageRuleKeys := rfl

theorem dkeys_mkPeriodBase_plain (tvk org em sd ed : String) :
    dkeys (mkPeriodBase tvk org em sd ed ("period" == "PeriodWithinYear"))
      = periodBaseKeys := rfl

theorem dkeys_mkPeriodBase_stage (tvk org em sd ed : String) :
    dkeys (mkPeriodBase tvk org em sd ed
      ("PeriodWithinYear" == "PeriodWithinYear")) = stageRuleKeys := rfl

/-- C10: a record appended to the periods list from `[Metadata]` (the
first rule a file emits) has exactly the five fields `taxon_key`,
`organisation`, `message`, `start_date`, `end_date` and no `stage` field,
while every later record of that file (from the `[Data]` stage array) also
carries `stage`; by contrast every record the seasonal and flightperiod
grammars emit carries `stage`, so only the periods list mixes two
schemas. -/
theorem c10_schema :
    (∀ (org : String) (cfg : Config) (r : Dict) (rest : List Dict),
      outRules (periodGenericFile org "period" cfg) = r :: rest →
      dkeys r = periodBaseKeys ∧ ∀ q ∈ rest, dkeys q = stageRuleKeys)
    ∧ (∀ (org : String) (cfg : Config) (r : Dict),
      r ∈ outRules (periodGenericFile org "PeriodWithinYear" cfg) →
      dkeys r = stageRuleKeys)
    ∧ (∀ (org : String) (cfg : Config) (r : Dict),
      r ∈ outRules (flightperiodFile org cfg) →
      dkeys r = stageRuleKeys) := by
  refine ⟨?_, ?_, ?_⟩
  · intro org cfg r rest h
    unfold periodGenericFile at h
    cases hm : hasSection cfg "Metadata"
    · rw [hm] at h; simp [outRules] at h
    · rw [hm] at h
      simp only [if_true] at h
      split at h
      · simp [outRules] at h
      · split at h
        · simp [outRules] at h
        · split at h
          · split at h
            · -- abort [base] on a sentinel in the arrays
              simp only [outRules, List.cons.injEq] at h
              obtain ⟨hr, hrest⟩ := h
              subst hr
              refine ⟨dkeys_mkPeriodBase_plain _ _ _ _ _, ?_⟩
              intro q hq
              rw [← hrest] at hq
              simp at hq
            · split at h
              · -- ok (base :: zip rules)
                simp only [outRules, List.cons.injEq] at h
                obtain ⟨hr, hrest⟩ := h
                subst hr
                refine ⟨dkeys_mkPeriodBase_plain _ _ _ _ _, ?_⟩
                intro q hq
                rw [← hrest] at hq
                obtain ⟨st', sv', ev', _, _, _, hq⟩ :=
                  zipStages_mem _ _ _ _ _ _ q hq
                rw [hq]
                exact dkeys_mkStageRule _ _ _ _ _ _
              · -- crash (base :: partial zip rules)
                simp only [outRules, List.cons.injEq] at h
                obtain ⟨hr, hrest⟩ := h
                subst hr
                refine ⟨dkeys_mkPeriodBase_plain _ _ _ _ _, ?_⟩
                intro q hq
                rw [← hrest] at hq
                obtain ⟨st', sv', ev', _, _, _, hq⟩ :=
                  zipStages_mem _ _ _ _ _ _ q hq
                rw [hq]
                exact dkeys_mkStageRule _ _ _ _ _ _
          · -- no Data block: only the base rule
            simp only [outRules, List.cons.injEq] at h
            obtain ⟨hr, hrest⟩ := h
            subst hr
            refine ⟨dkeys_mkPeriodBase_plain _ _ _ _ _, ?_⟩
            intro q hq
            rw [← hrest] at hq
            simp at hq
  · intro org cfg r h
    unfold periodGenericFile at h
    cases hm : hasSection cfg "Metadata"
    · rw [hm] at h; simp [outRules] at h
    · rw [hm] at h
      simp only [if_true] at h
      split at h
      · simp [outRules] at h
      · split at h
        · simp [outRules] at h
        · split at h
          · split at h
            · simp only [outRules, List.mem_singleton] at h
              subst h
              exact dkeys_mkPeriodBase_stage _ _ _ _ _
            · split at h <;>
              · simp only [outRules, List.mem_cons] at h
                rcases h with h | h
                · subst h
                  exact dkeys_mkPeriodBase_stage _ _ _ _ _
                · obtain ⟨st', sv', ev', _, _, _, hq⟩ :=
                    zipStages_mem _ _ _ _ _ _ r h
                  rw [hq]
                  exact dkeys_mkStageRule _ _ _ _ _ _
          · simp only [outRules, List.mem_singleton] at h
            subst h
            exact dkeys_mkPeriodBase_stage _ _ _ _ _
  · intro org cfg r h
    unfold flightperiodFile at h
    cases hm : hasSection cfg "Metadata"
    · rw [hm] at h; simp [outRules] at h
    · rw [hm] at h
      simp only [if_true] at h
      split at h
      · split at h
        · simp only [outRules, List.mem_singleton] at h
          subst h
          exact dkeys_mkStageRule _ _ _ _ _ _
        · split at h <;>
          · simp only [outRules, List.mem_cons] at h
            rcases h with h | h
            · subst h
              exact dkeys_mkStageRule _ _ _ _ _ _
            · obtain ⟨st', sv', ev', _, _, _, hq⟩ :=
                zipStages_mem _ _ _ _ _ _ r h
              rw [hq]
              exact dkeys_mkStageRule _ _ _ _ _ _
      · simp only [outRules, List.mem_singleton] at h
        subst h
        exact dkeys_mkStageRule _ _ _ _ _ _

/-- A valid period file with one stage block, for the closed instance. -/
def c10File : Config :=
  [("Metadata", [("testtype", "Period"), ("tvk", "T10"), ("errormsg", "m10"),
     ("startdate", "1/1"), ("enddate", "31/12")]),
   ("Data", [("stage", "adult"), ("startdate", "1/4"), ("enddate", "30/9")])]

/-- Closed instance of `c10_schema` at concrete files. -/
theorem c10_schema_witness :
    (dkeys (mkPeriodBase "T10" "OrgP" "m10" "1/1" "31/12"
        ("period" == "PeriodWithinYear")) = periodBaseKeys
      ∧ ∀ q ∈ [mkStageRule "T10" "OrgP" "m10" "1/4" "30/9" "adult"],
        dkeys q = stageRuleKeys)
    ∧ dkeys ((outRules (flightperiodFile "OrgF" c10File)).headD [])
        = stageRuleKeys := by
  constructor
  · exact c10_schema.1 "OrgP" c10File
      (mkPeriodBase "T10" "OrgP" "m10" "1/1" "31/12" ("period" == "PeriodWithinYear"))
      [mkStageRule "T10" "OrgP" "m10" "1/4" "30/9" "adult"] (by decide)
  · exact c10_schema.2.2 "OrgF" c10File _ (by decide)

/-- The separator a stage-block author writes between entries: a newline,
optionally preceded by one blank line. -/
def sepOf (b : Bool) : List Char := if b then ['\n', '\n'] else ['\n']

/-- Entry lines joined by such separators, as the duplicate-tolerant
reader produces them for a repeated `[Data]` key. -/
def joinEntries (l0 : List Char) (ps : List (Bool × List Char)) : List Char :=
  l0 ++ (ps.map (fun p => sepOf p.1 ++ p.2)).flatten

/-- Lines joined by single newlines. -/
def intercalNl : List (List Char) → List Char
  | [] => []
  | [l] => l
  | l :: l' :: ls => l ++ '\n' :: intercalNl (l' :: ls)

theorem joinEntries_cons (l0 l1 : List Char) (b : Bool)
    (ps : List (Bool × List Char)) :
    joinEntries l0 ((b, l1) :: ps) = l0 ++ (sepOf b ++ joinEntries l1 ps) := by
  simp [joinEntries, List.append_assoc]

theorem collapse_noNl : ∀ (l cs : List Char), '\n' ∉ l →
    collapse (l ++ cs) = l ++ collapse cs := by
  intro l
  induction l with
  | nil => intro cs _; simp
  | cons c l' ih =>
    intro cs h
    have hc : c ≠ '\n' := fun hx => h (by rw [hx]; exact List.mem_cons_self _ _)
    have hl' : '\n' ∉ l' := fun hx => h (List.mem_cons_of_mem _ hx)
    cases hlc : l' ++ cs with
    | nil =>
      obtain ⟨h1, h2⟩ := List.append_eq_nil.mp hlc
      subst h1
      subst h2
      simp [collapse]
    | cons d t =>
      rw [List.cons_append, hlc]
      simp only [collapse]
      rw [if_neg (fun hx => hc hx.1)]
      rw [← hlc, ih cs hl']
      simp

theorem collapse_sep (b : Bool) (d : Char) (t : List Char) (hd : d ≠ '\n') :
    collapse (sepOf b ++ d :: t) = '\n' :: collapse (d :: t) := by
  cases b with
  | false =>
    simp only [sepOf, if_neg Bool.false_ne_true, List.cons_append, List.nil_append]
    simp only [collapse]
    rw [if_neg (fun hx => hd hx.2)]
  | true =>
    simp only [sepOf, if_pos rfl, List.cons_append, List.nil_append]
    simp [collapse]

theorem collapse_joinEntries :
    ∀ (ps : List (Bool × List Char)) (l0 : List Char), l0 ≠ [] → '\n' ∉ l0 →
    (∀ p ∈ ps, p.2 ≠ [] ∧ '\n' ∉ p.2) →
    collapse (joinEntries l0 ps) = intercalNl (l0 :: ps.map (fun p => p.2)) := by
  intro ps
  induction ps with
  | nil =>
    intro l0 _ h2 _
    show collapse (l0 ++ []) = _
    rw [collapse_noNl l0 [] h2]
    simp [intercalNl, collapse]
  | cons p ps ih =>
    obtain ⟨b, l1⟩ := p
    intro l0 _ h2 hps
    have hl1 := hps (b, l1) (List.mem_cons_self _ _)
    rw [joinEntries_cons, collapse_noNl l0 _ h2]
    obtain ⟨c, t, hjoin, hc⟩ : ∃ c t, joinEntries l1 ps = c :: t ∧ c ≠ '\n' := by
      cases hcl : l1 with
      | nil => exact absurd hcl hl1.1
      | cons c t' =>
        refine ⟨c, t' ++ (ps.map (fun p => sepOf p.1 ++ p.2)).flatten, ?_, ?_⟩
        · simp [joinEntries]
        · intro hx
          exact hl1.2 (by rw [hcl, hx]; exact List.mem_cons_self _ _)
    rw [hjoin, collapse_sep b c t hc, ← hjoin]
    rw [ih l1 hl1.1 hl1.2 (fun q hq => hps q (List.mem_cons_of_mem _ hq))]
    simp [intercalNl]

theorem splitNl_noNl : ∀ (l : List Char), '\n' ∉ l → splitNl l = [l] := by
  intro l
  induction l with
  | nil => intro _; rfl
  | cons c l' ih =>
    intro h
    have hc : c ≠ '\n' := fun hx => h (by rw [hx]; exact List.mem_cons_self _ _)
    simp only [splitNl, if_neg hc]
    rw [ih (fun hx => h (List.mem_cons_of_mem _ hx))]

theorem splitNl_append_nl : ∀ (l cs : List Char), '\n' ∉ l →
    splitNl (l ++ '\n' :: cs) = l :: splitNl cs := by
  intro l
  induction l with
  | nil => intro cs _; simp [splitNl]
  | cons c l' ih =>
    intro cs h
    have hc : c ≠ '\n' := fun hx => h (by rw [hx]; exact List.mem_cons_self _ _)
    rw [List.cons_append]
    simp only [splitNl, if_neg hc]
    rw [ih cs (fun hx => h (List.mem_cons_of_mem _ hx))]

theorem splitNl_intercal : ∀ (ls : List (List Char)), ls ≠ [] →
    (∀ l ∈ ls, '\n' ∉ l) → splitNl (intercalNl ls) = ls := by
  intro ls
  induction ls with
  | nil => intro h _; exact absurd rfl h
  | cons l ls ih =>
    intro _ hmem
    cases ls with
    | nil =>
      show splitNl (intercalNl [l]) = [l]
      simp only [intercalNl]
      exact splitNl_noNl l (hmem l (List.mem_cons_self _ _))
    | cons l' ls' =>
      show splitNl (intercalNl (l :: l' :: ls')) = _
      simp only [intercalNl]
      rw [splitNl_append_nl l _ (hmem l (List.mem_cons_self _ _))]
      rw [show intercalNl (l' :: ls') = intercalNl (l' :: ls') from rfl] at *
      rw [ih (by simp) (fun q hq => hmem q (List.mem_cons_of_mem _ hq))]

/-- C9 amended: the collapse is one non-overlapping pass of
`"\n\n" → "\n"`, so the split is clean exactly for values in which
consecutive entries are separated by a newline with at most one blank line
between them: for any such value the resulting array is exactly the list
of entry lines, with no spurious empty elements.  (Two or more consecutive
blank lines, or a leading blank line, do produce empty elements — see the
counterexample.) -/
theorem c9_single_blank_split (l0 : List Char) (ps : List (Bool × List Char))
    (h0 : l0 ≠ []) (h0n : '\n' ∉ l0)
    (hps : ∀ p ∈ ps, p.2 ≠ [] ∧ '\n' ∉ p.2) :
    splitArr (String.mk (joinEntries l0 ps)) =
      (l0 :: ps.map (fun p => p.2)).map (fun cs => String.mk cs)
    ∧ "" ∉ splitArr (String.mk (joinEntries l0 ps)) := by
  have hLne : ∀ l ∈ l0 :: ps.map (fun p => p.2), l ≠ [] := by
    intro l hl
    rcases List.mem_cons.mp hl with h | h
    · rw [h]; exact h0
    · obtain ⟨q, hq, hql⟩ := List.mem_map.mp h
      rw [← hql]; exact (hps q hq).1
  have hLnl : ∀ l ∈ l0 :: ps.map (fun p => p.2), '\n' ∉ l := by
    intro l hl
    rcases List.mem_cons.mp hl with h | h
    · rw [h]; exact h0n
    · obtain ⟨q, hq, hql⟩ := List.mem_map.mp h
      rw [← hql]; exact (hps q hq).2
  have hc := collapse_joinEntries ps l0 h0 h0n hps
  have hsplit := splitNl_intercal (l0 :: ps.map (fun p => p.2)) (by simp) hLnl
  have hmain : splitArr (String.mk (joinEntries l0 ps)) =
      (l0 :: ps.map (fun p => p.2)).map (fun cs => String.mk cs) := by
    show (pySplitlines (collapse (joinEntries l0 ps))).map (fun cs => String.mk cs) = _
    rw [hc]
    obtain ⟨c, t, hct⟩ : ∃ c t, intercalNl (l0 :: ps.map (fun p => p.2)) = c :: t := by
      cases hl0 : l0 with
      | nil => exact absurd hl0 h0
      | cons c t' =>
        cases hmap : ps.map (fun p => p.2) with
        | nil => exact ⟨c, t', by simp [intercalNl]⟩
        | cons m ms => exact ⟨c, t' ++ '\n' :: intercalNl (m :: ms), by simp [intercalNl]⟩
    rw [hct] at hsplit ⊢
    show ((fun cs =>
      (if (splitNl cs).getLast? = some [] then (splitNl cs).dropLast
       else splitNl cs)) (c :: t)).map (fun cs => String.mk cs) = _
    simp only
    rw [hsplit]
    rw [if_neg ?_]
    intro hlast
    have hmem : ([] : List Char) ∈ l0 :: ps.map (fun p => p.2) := by
      obtain ⟨hne, heq⟩ := List.mem_getLast?_eq_getLast (show ([] : List Char) ∈
        (l0 :: ps.map (fun p => p.2)).getLast? from hlast)
      rw [heq]
      exact List.getLast_mem hne
    exact hLne [] hmem rfl
  refine ⟨hmain, ?_⟩
  rw [hmain]
  intro hmem
  obtain ⟨l, hl, hle⟩ := List.mem_map.mp hmem
  have : l = [] := congrArg String.data hle
  exact hLne l hl this

/-- Closed instance of `c9_single_blank_split`: one entry, one blank
separator line, split cleanly. -/
theorem c9_single_blank_split_witness :
    splitArr (String.mk (joinEntries ['a'] [(true, ['b'])])) =
      (['a'] :: [(true, ['b'])].map (fun p => p.2)).map (fun cs => String.mk cs)
    ∧ "" ∉ splitArr (String.mk (joinEntries ['a'] [(true, ['b'])])) :=
  c9_single_blank_split ['a'] [(true, ['b'])] (by decide) (by decide) (by decide)
